import Mathlib

/-!
Verification of the agentic-traffic-testing orchestrator and LLM backend.

This file shallowly embeds the Python code of
`src/agents/agent_a/orchestrator.py` and `src/llm/serve_llm.py` into Lean:

* JSON values are an inductive `JsonVal`; `jsonParse` models the strict
  `json.loads` decoder (objects keep their fields in parse order, duplicate
  keys are resolved to the last one by `pyGet`, exactly as a Python dict
  built from a JSON text).  The non-standard `NaN`/`Infinity` extension of
  Python's decoder and its recursion limit are not modelled.
* `parse_json_response` is `AgentVerseOrchestrator._parse_json_response`.
* `evaluate_results` models stage 4 of the orchestrator, split into the
  field extraction from the parsed JSON (`extractEval`, which is `none`
  exactly where the Python code would raise a `TypeError`/`AttributeError`
  on ill-typed LLM output) and the override logic (`applyOverrides`).
* `workflowLoop` models the `while` loop of `run_workflow` (fuel-indexed so
  that it is a structural recursion; the fuel equals `max_iterations`,
  which is provably sufficient).
* `roundResponses`/`horizontalDiscussion` model `_horizontal_discussion`,
  `verticalDecision` models `_vertical_decision`; worker calls are oracles
  returning `Except String String` where `.error msg` models a raised
  exception with message `msg`.
* `recruit_experts` models stage 1; `handle_chat` models the aiohttp chat
  handler of the LLM backend together with its in-flight counter.
-/

set_option autoImplicit false

namespace AgenticTraffic

/-- JSON values as decoded by `json.loads`.  Numbers are rationals (covering
both Python ints and the decimal floats a JSON text can denote);
`null` doubles as Python's `None`. -/
inductive JsonVal : Type where
  | null : JsonVal
  | bool : Bool → JsonVal
  | num : Rat → JsonVal
  | str : String → JsonVal
  | arr : List JsonVal → JsonVal
  | obj : List (String × JsonVal) → JsonVal

/-- The whitespace characters `json.loads` skips between tokens. -/
def jsonWs (c : Char) : Bool :=
  c == ' ' || c == '\t' || c == '\n' || c == '\r'

/-- Drop leading JSON whitespace. -/
def skipWs : List Char → List Char
  | [] => []
  | c :: t => if jsonWs c then skipWs t else c :: t

/-- Value of a hex digit, if any. -/
def hexVal (c : Char) : Option Nat :=
  if '0' ≤ c ∧ c ≤ '9' then some (c.toNat - 48)
  else if 'a' ≤ c ∧ c ≤ 'f' then some (c.toNat - 87)
  else if 'A' ≤ c ∧ c ≤ 'F' then some (c.toNat - 55)
  else none

/-- Single-character string escapes of JSON. -/
def escChar : Char → Option Char
  | '"' => some '"'
  | '\\' => some '\\'
  | '/' => some '/'
  | 'b' => some (Char.ofNat 8)
  | 'f' => some (Char.ofNat 12)
  | 'n' => some '\n'
  | 'r' => some '\r'
  | 't' => some '\t'
  | _ => none

/-- Parse the body of a JSON string after the opening quote; returns the
decoded characters and the remainder after the closing quote. -/
def parseJStr : List Char → Option (List Char × List Char)
  | [] => none
  | '"' :: rest => some ([], rest)
  | '\\' :: 'u' :: h1 :: h2 :: h3 :: h4 :: rest => do
      let a ← hexVal h1
      let b ← hexVal h2
      let c ← hexVal h3
      let d ← hexVal h4
      let (s, r) ← parseJStr rest
      some (Char.ofNat (((a * 16 + b) * 16 + c) * 16 + d) :: s, r)
  | '\\' :: e :: rest => do
      let c ← escChar e
      let (s, r) ← parseJStr rest
      some (c :: s, r)
  | c :: rest =>
      if c.toNat < 32 then none
      else do
        let (s, r) ← parseJStr rest
        some (c :: s, r)

/-- Numeric value of a decimal digit character. -/
def digVal (c : Char) : Nat := c.toNat - 48

/-- Split off a maximal run of decimal digits. -/
def takeDigits : List Char → List Char × List Char
  | [] => ([], [])
  | c :: t =>
      if c.isDigit then
        let (d, r) := takeDigits t
        (c :: d, r)
      else ([], c :: t)

/-- Natural number denoted by a digit run. -/
def digitsToNat (ds : List Char) : Nat :=
  ds.foldl (fun a c => a * 10 + digVal c) 0

/-- Parse an optional fraction part `.ddd`. -/
def parseFrac : List Char → Option (List Char × List Char)
  | '.' :: t =>
      match takeDigits t with
      | ([], _) => none
      | (ds, r) => some (ds, r)
  | cs => some ([], cs)

/-- Parse an optional exponent part `e±ddd`. -/
def parseExp : List Char → Option (Int × List Char)
  | [] => some (0, [])
  | c :: t =>
      if c == 'e' || c == 'E' then
        let (sgn, t1) : Int × List Char :=
          match t with
          | '+' :: u => (1, u)
          | '-' :: u => (-1, u)
          | _ => (1, t)
        match takeDigits t1 with
        | ([], _) => none
        | (ds, r) => some (sgn * (digitsToNat ds : Int), r)
      else some (0, c :: t)

/-- Rational denoted by sign, integer digits, fraction digits and exponent. -/
def ratOfParts (neg : Bool) (ip fr : List Char) (ex : Int) : Rat :=
  let k := fr.length
  let m : Int := (digitsToNat ip * 10 ^ k + digitsToNat fr : Nat)
  let m : Int := if neg then -m else m
  if 0 ≤ ex then mkRat (m * 10 ^ ex.toNat) (10 ^ k)
  else mkRat m (10 ^ k * 10 ^ (-ex).toNat)

/-- Parse a JSON number (strict grammar: no leading zeros, mandatory digits
around `.`). -/
def parseNum (cs : List Char) : Option (Rat × List Char) :=
  let (neg, cs1) : Bool × List Char :=
    match cs with
    | '-' :: t => (true, t)
    | _ => (false, cs)
  match takeDigits cs1 with
  | ([], _) => none
  | (ip, r1) =>
      if 1 < ip.length ∧ ip.headD '0' == '0' then none
      else do
        let (fr, r2) ← parseFrac r1
        let (ex, r3) ← parseExp r2
        some (ratOfParts neg ip fr ex, r3)

/-- Element loop of a JSON array (after the first element's start has been
reached); `pv` is the value parser for the current fuel level. -/
def parseListAux (pv : List Char → Option (JsonVal × List Char)) :
    Nat → List Char → Option (List JsonVal × List Char)
  | 0, _ => none
  | n + 1, cs => do
      let (v, r) ← pv cs
      match skipWs r with
      | ',' :: r2 => do
          let (vs, r3) ← parseListAux pv n r2
          some (v :: vs, r3)
      | ']' :: r2 => some ([v], r2)
      | _ => none

/-- Member loop of a JSON object (after the first key's start has been
reached). -/
def parseFieldsAux (pv : List Char → Option (JsonVal × List Char)) :
    Nat → List Char → Option (List (String × JsonVal) × List Char)
  | 0, _ => none
  | n + 1, cs =>
      match skipWs cs with
      | '"' :: rest => do
          let (k, r1) ← parseJStr rest
          match skipWs r1 with
          | ':' :: r2 => do
              let (v, r3) ← pv r2
              match skipWs r3 with
              | ',' :: r4 => do
                  let (fs, r5) ← parseFieldsAux pv n r4
                  some ((String.mk k, v) :: fs, r5)
              | '\x7d' :: r4 => some ([(String.mk k, v)], r4)
              | _ => none
          | _ => none
      | _ => none

/-- Parse one JSON value; `fuel` bounds the nesting depth. -/
def parseVal : Nat → List Char → Option (JsonVal × List Char)
  | 0, _ => none
  | fuel + 1, cs =>
      match skipWs cs with
      | 'n' :: 'u' :: 'l' :: 'l' :: rest => some (.null, rest)
      | 't' :: 'r' :: 'u' :: 'e' :: rest => some (.bool true, rest)
      | 'f' :: 'a' :: 'l' :: 's' :: 'e' :: rest => some (.bool false, rest)
      | '"' :: rest => do
          let (s, r) ← parseJStr rest
          some (.str (String.mk s), r)
      | '[' :: rest =>
          (match skipWs rest with
           | ']' :: r2 => some (.arr [], r2)
           | cs2 => do
               let (vs, r) ← parseListAux (parseVal fuel) (cs2.length + 1) cs2
               some (.arr vs, r))
      | '\x7b' :: rest =>
          (match skipWs rest with
           | '\x7d' :: r2 => some (.obj [], r2)
           | cs2 => do
               let (fs, r) ← parseFieldsAux (parseVal fuel) (cs2.length + 1) cs2
               some (.obj fs, r))
      | cs1 => do
          let (q, r) ← parseNum cs1
          some (.num q, r)

/-- Strict JSON decode of a whole text, as `json.loads`: leading and
trailing whitespace allowed, anything else trailing rejects. -/
def jsonParse (s : String) : Option JsonVal :=
  match parseVal (s.length + 1) s.data with
  | some (v, rest) => if (skipWs rest).isEmpty then some v else none
  | none => none

/-! ### Python-level helpers -/

/-- Whitespace for Python's `str.strip()` (ASCII part; exotic unicode
whitespace is not modelled). -/
def pyIsSpace (c : Char) : Bool :=
  c == ' ' || c == '\t' || c == '\n' || c == '\r' || c == '\x0b' || c == '\x0c'

/-- `s.strip()`. -/
def pyStrip (s : String) : String :=
  String.mk (((s.data.dropWhile pyIsSpace).reverse.dropWhile pyIsSpace).reverse)

/-- Boolean prefix test on character lists. -/
def isPrefList (p s : List Char) : Bool :=
  match p, s with
  | [], _ => true
  | x :: xs, y :: ys => x == y && isPrefList xs ys
  | _, [] => false

/-- `s.startswith(pre)`. -/
def strStartsWith (s pre : String) : Bool :=
  isPrefList pre.data s.data

/-- `s.endswith(suf)`. -/
def strEndsWith (s suf : String) : Bool :=
  isPrefList suf.data.reverse s.data.reverse

/-- `s[n:]`. -/
def strDrop (s : String) (n : Nat) : String :=
  String.mk (s.data.drop n)

/-- `s[:-n]` for positive `n` (here: drop the last `n` characters). -/
def strDropRight (s : String) (n : Nat) : String :=
  String.mk (s.data.take (s.data.length - n))

/-- Python truthiness of a decoded JSON value (`bool(v)`). -/
def pyTruthy : JsonVal → Bool
  | .null => false
  | .bool b => b
  | .num q => q != 0
  | .str s => s != ""
  | .arr l => !l.isEmpty
  | .obj l => !l.isEmpty

/-- `dict.get k` on a dict built from a JSON object: the last binding of a
duplicated key wins, as in Python. -/
def pyGet (kvs : List (String × JsonVal)) (k : String) : Option JsonVal :=
  (kvs.reverse.find? (fun p => p.1 == k)).map (·.2)

/-- `dict.get k default`. -/
def pyGetD (kvs : List (String × JsonVal)) (k : String) (d : JsonVal) : JsonVal :=
  (pyGet kvs k).getD d

/-- Best-effort rendering of `str(v)` for a decoded JSON value (used only to
build feedback text; Python's exact repr of nested values and floats is
approximated, which no claim observes). -/
def pyStr : JsonVal → String
  | .null => "None"
  | .bool b => if b then "True" else "False"
  | .num q => if q.den = 1 then toString q.num else toString q.num ++ "/" ++ toString q.den
  | .str s => s
  | .arr _ => "[...]"
  | .obj _ => "\x7b...\x7d"

/-! ### `_parse_json_response` (orchestrator.py lines 375-401) -/

/-- The fence-stripping prefix of `_parse_json_response`: trim, remove a
leading triple-backtick fence optionally tagged `json`, remove a trailing
triple-backtick fence, trim again. -/
def stripFences (response : String) : String :=
  let r0 := pyStrip response
  let r1 := if strStartsWith r0 "```json" then strDrop r0 7 else r0
  let r2 := if strStartsWith r1 "```" then strDrop r1 3 else r1
  let r3 := if strEndsWith r2 "```" then strDropRight r2 3 else r2
  pyStrip r3

/-- Index of the first opening curly brace (Python `response.find`). -/
def firstBrace (l : List Char) : Option Nat :=
  l.findIdx? (· == '\x7b')

/-- Index of the last closing curly brace (Python `response.rfind`). -/
def lastBrace (l : List Char) : Option Nat :=
  (l.reverse.findIdx? (· == '\x7d')).map (fun k => l.length - 1 - k)

/-- The retry substring `response[start:end]` from the first opening brace to
the last closing brace inclusive, when `end > start` (Python lines 394-398);
`none` when the retry is skipped. -/
def braceSlice (s : String) : Option String :=
  match firstBrace s.data, lastBrace s.data with
  | some i, some j =>
      if i < j + 1 then some (String.mk ((s.data.take (j + 1)).drop i)) else none
  | _, _ => none

/-- The decode-retry-default cascade of `_parse_json_response` (lines
390-401): first decode attempt, then a retry on the brace slice, then the
default. -/
def fallbackParse (o : Option JsonVal) (sub : Option String) (default : JsonVal) : JsonVal :=
  match o with
  | some v => v
  | none =>
      match sub with
      | some s2 =>
          match jsonParse s2 with
          | some v => v
          | none => default
      | none => default

/-- `AgentVerseOrchestrator._parse_json_response`: strict decode of the
fence-stripped response, then a retry on the brace-delimited substring, then
the default. -/
def parse_json_response (response : String) (default : JsonVal) : JsonVal :=
  let r := stripFences response
  fallbackParse (jsonParse r) (braceSlice r) default

/-! ### Stage 4: `evaluate_results` (orchestrator.py lines 1209-1351)

The LLM call itself is abstracted into the `response` string argument; the
rest of the stage is deterministic.  Extraction of the fields from the
parsed JSON models Python's dynamic typing: `extractEval` is `none` exactly
where the source would raise (e.g. `parsed.get` on a non-dict, a comparison
of a non-numeric score with the threshold, `.strip()` on a non-string
truthy feedback value).  JSON booleans compare with ints in Python
(`True == 1`), hence a boolean score is read as 0/1.  For a falsy non-list
`missing_aspects` and a falsy non-string `rationale` the source stores the
raw value, which no claim observes; they are modelled by `[]`/`none`. -/

/-- Embed a Python int into the rationals. -/
def intToRat (n : Int) : Rat := mkRat n 1

/-- The evaluation fields as extracted from the parsed response, before the
override logic (orchestrator.py lines 1278-1284 and 1303-1304). -/
structure ParsedEval where
  goal_achieved : Bool
  score : Rat
  should_iterate : Bool
  feedback : String
  rationale : Option String
  missing_aspects : List JsonVal
  criteria : Option JsonVal

/-- `EvaluationResult` dataclass of the orchestrator. -/
structure EvaluationResult where
  goal_achieved : Bool
  score : Rat
  criteria : Option JsonVal
  rationale : Option String
  feedback : String
  missing_aspects : List JsonVal
  should_iterate : Bool

/-- `parsed.get("score", 50)` as a number usable in comparisons; `none` when
a present score is neither numeric nor boolean (the source would then raise
`TypeError` at `score >= state.success_threshold`). -/
def extractScore (parsed : JsonVal) : Option Rat :=
  match parsed with
  | .obj kvs =>
      match pyGet kvs "score" with
      | none => some 50
      | some (.num q) => some q
      | some (.bool b) => some (if b then 1 else 0)
      | some _ => none
  | _ => none

/-- `parsed.get("feedback", "") or ""` followed by the `.strip()` uses:
`none` when a truthy non-string would make `.strip()` raise. -/
def extractFeedback (kvs : List (String × JsonVal)) : Option String :=
  match pyGet kvs "feedback" with
  | none => some ""
  | some (.str s) => some s
  | some v => if pyTruthy v then none else some ""

/-- `parsed.get("rationale")`: a string is kept, a falsy value acts as
absent; a truthy non-string (whose formatting is not modelled) is `none`. -/
def extractRationale (kvs : List (String × JsonVal)) : Option (Option String) :=
  match pyGet kvs "rationale" with
  | none => some none
  | some (.str s) => some (some s)
  | some v => if pyTruthy v then none else some none

/-- `parsed.get("missing_aspects", [])`: a list is kept, a falsy value acts
as empty; a truthy non-list (which the join would fail on) is `none`. -/
def extractMissing (kvs : List (String × JsonVal)) : Option (List JsonVal) :=
  match pyGet kvs "missing_aspects" with
  | none => some []
  | some (.arr l) => some l
  | some v => if pyTruthy v then none else some []

/-- Extract all evaluation fields from the parsed response; `none` models a
raised exception on ill-typed LLM output. -/
def extractEval (parsed : JsonVal) : Option ParsedEval :=
  match parsed with
  | .obj kvs =>
      match extractScore (.obj kvs), extractFeedback kvs, extractRationale kvs,
          extractMissing kvs with
      | some score, some feedback, some rationale, some missing =>
          some
            { goal_achieved := pyTruthy (pyGetD kvs "goal_achieved" (.bool false))
              score := score
              should_iterate := pyTruthy (pyGetD kvs "should_iterate" (.bool false))
              feedback := feedback
              rationale := rationale
              missing_aspects := missing
              criteria := pyGet kvs "criteria" }
      | _, _, _, _ => none
  | _ => none

/-- Feedback fallback of lines 1306-1314, built from rationale and missing
aspects (or the canned below-threshold sentence). -/
def buildFeedback (score : Rat) (rationale : Option String) (missing : List JsonVal) : String :=
  let parts : List String :=
    (match rationale with
     | some s => if s != "" then ["Previous rationale: " ++ s] else []
     | none => []) ++
    (if missing.isEmpty then []
     else ["Missing or weak aspects: " ++ String.intercalate ", " (missing.map pyStr) ++ "."])
  let fb := pyStrip (String.intercalate " " parts)
  if fb == "" then
    "Score " ++ pyStr (.num score) ++
      "/100 is below threshold. Consider adjusting the expert team or approach."
  else fb

/-- Truthiness of the stored rationale (`if rationale:`). -/
def rationaleTruthy : Option String → Bool
  | some s => s != ""
  | none => false

/-- The override logic of `evaluate_results` (lines 1286-1314): threshold
override, iteration-budget override, goal-achieved override, feedback
fallback. -/
def applyOverrides (threshold : Int) (iteration maxIterations : Nat)
    (p : ParsedEval) : EvaluationResult :=
  let gi : Bool × Bool :=
    if 0 < threshold then
      if intToRat threshold ≤ p.score then (true, false) else (false, true)
    else (p.goal_achieved, p.should_iterate)
  let g1 := gi.1
  let it2 := if maxIterations ≤ iteration + 1 then false else gi.2
  let it3 := if g1 then false else it2
  let fb :=
    if (pyStrip p.feedback) == "" && it3 &&
        (rationaleTruthy p.rationale || !p.missing_aspects.isEmpty) then
      buildFeedback p.score p.rationale p.missing_aspects
    else p.feedback
  { goal_achieved := g1
    score := p.score
    criteria := p.criteria
    rationale := p.rationale
    feedback := fb
    missing_aspects := p.missing_aspects
    should_iterate := it3 }

/-- Stage 4 of the orchestrator, from the raw LLM response text; `none`
models a raised exception on ill-typed output. -/
def evaluate_results (threshold : Int) (iteration maxIterations : Nat)
    (response : String) : Option EvaluationResult :=
  (extractEval (parse_json_response response (.obj []))).map
    (applyOverrides threshold iteration maxIterations)

/-! ### The `run_workflow` iteration loop (orchestrator.py lines 1389-1452)

Of the four stages only the evaluation influences the loop control
(`if not state.evaluation.should_iterate: break`), so the loop is modelled
over an oracle `orc` giving the evaluator's LLM response for each
iteration.  The loop is fuel-indexed to stay a structural recursion; the
driver passes `max_iterations` as fuel, which `workflowLoop_spec` below
proves sufficient.  The result is `(state.iteration, iteration_history)` at
loop exit, where the history keeps each iteration's evaluation; `none`
models the workflow aborting because an evaluation raised (or, in the
provably unreachable fuel-exhaustion case). -/

/-- One-step unfolding of the `while state.iteration < state.max_iterations`
loop: evaluate, append to the history, break or advance. -/
def workflowLoop (orc : Nat → String) (threshold : Int) (maxIterations : Nat) :
    Nat → Nat → List EvaluationResult → Option (Nat × List EvaluationResult)
  | 0, iteration, history =>
      if iteration < maxIterations then none else some (iteration, history)
  | fuel + 1, iteration, history =>
      if iteration < maxIterations then
        match evaluate_results threshold iteration maxIterations (orc iteration) with
        | none => none
        | some ev =>
            let history' := history ++ [ev]
            if ev.should_iterate then workflowLoop orc threshold maxIterations fuel (iteration + 1) history'
            else some (iteration, history')
      else some (iteration, history)

/-- The whole iteration loop of `run_workflow`, started at iteration 0 with
an empty history. -/
def run_workflow_loop (orc : Nat → String) (threshold : Int) (maxIterations : Nat) :
    Option (Nat × List EvaluationResult) :=
  workflowLoop orc threshold maxIterations maxIterations 0 []

/-! ### Substring containment (Python's `in` on strings) -/

/-- `pat` occurs as a contiguous substring of the list. -/
def hasSub (pat : List Char) : List Char → Bool
  | [] => pat.isEmpty
  | c :: t => isPrefList pat (c :: t) || hasSub pat t

/-- Python `pat in s` for strings. -/
def pyIn (pat s : String) : Bool := hasSub pat.data s.data

/-! ### Stage 2, horizontal protocol (`_horizontal_discussion`,
orchestrator.py lines 637-750)

Worker calls are oracles `Nat → Except String String` (argument: the
expert's position in the recruitment list); `.error msg` models
`_call_agent_b` raising an exception whose message formats as `msg`, which
the `except` block turns into the sentinel `"[Agent error: <msg>]"`.  The
discussion history only feeds the prompts, so it does not influence the
oracle's outputs; the history string is still tracked faithfully because it
is the argument of the final `_synthesize_discussion` call (modelled by the
`synth` oracle). -/

/-- An expert as consumed by the deliberation/execution stages. -/
structure Expert where
  role : String
  responsibilities : String
  contract : String
  endpoint : String
  index : Nat

/-- One expert's entry in a discussion round. -/
structure RoundResp where
  expert : String
  index : Nat
  response : String
  consensus : Bool

/-- The recorded output of one horizontal worker call, with the
`except` fallback of lines 696-697. -/
def agentOutput : Except String String → String
  | .ok o => o
  | .error msg => "[Agent error: " ++ msg ++ "]"

/-- The recorded response entry of one expert (lines 699-704). -/
def expertResponse (orc : Nat → Except String String) (i : Nat) (e : Expert) : RoundResp :=
  let output := agentOutput (orc i)
  { expert := e.role
    index := e.index
    response := output
    consensus := pyIn "[CONSENSUS]" output }

/-- All responses of one round, in expert order (the round loop of
lines 652-707). -/
def roundResponses (experts : List Expert) (orc : Nat → Except String String) :
    List RoundResp :=
  experts.enum.map (fun p => expertResponse orc p.1 p.2)

/-- The incrementally tracked `all_consensus` flag equals this conjunction. -/
def allConsensus (rs : List RoundResp) : Bool := rs.all (·.consensus)

/-- `s.upper()` (ASCII). -/
def strUpper (s : String) : String := String.mk (s.data.map Char.toUpper)

/-- The `"--- Round K ---"` summary appended to the history
(lines 710-713). -/
def roundSummary (round_num : Nat) (rs : List RoundResp) : String :=
  "\n--- Round " ++ toString round_num ++ " ---\n" ++
    String.join (rs.map (fun r => strUpper r.expert ++ ": " ++ r.response ++ "\n"))

/-- Result of `_horizontal_discussion`; `historyToSynth` is the
`discussion_history` string passed to `_synthesize_discussion`. -/
structure HDecision where
  final_decision : String
  rounds : List (Nat × List RoundResp)
  consensus_reached : Bool
  structure_used : String
  historyToSynth : String

/-- The round loop of `_horizontal_discussion` (fuel = remaining rounds,
`k` = current round number). -/
def hLoop (experts : List Expert) (orc : Nat → Nat → Except String String) :
    Nat → Nat → List (Nat × List RoundResp) → String →
      List (Nat × List RoundResp) × Bool × String
  | 0, _, acc, hist => (acc, false, hist)
  | n + 1, k, acc, hist =>
      let rr := roundResponses experts (orc k)
      let hist' := hist ++ roundSummary k rr
      let acc' := acc ++ [(k, rr)]
      if allConsensus rr then (acc', true, hist')
      else hLoop experts orc n (k + 1) acc' hist'

/-- `_horizontal_discussion`: up to `max_rounds` rounds, then one synthesis
call on the accumulated history. -/
def horizontalDiscussion (experts : List Expert)
    (orc : Nat → Nat → Except String String) (synth : String → String)
    (max_rounds : Nat := 3) : HDecision :=
  let r := hLoop experts orc max_rounds 1 [] ""
  { final_decision := synth r.2.2
    rounds := r.1
    consensus_reached := r.2.1
    structure_used := "horizontal"
    historyToSynth := r.2.2 }

/-! ### Stage 2, vertical protocol (`_vertical_decision`,
orchestrator.py lines 752-961) -/

/-- One reviewer's entry in a vertical iteration. -/
structure RevResp where
  reviewer : String
  critique : String
  approved : Bool

/-- One vertical iteration record. -/
structure VIter where
  iteration : Nat
  proposal : String
  reviewer_responses : List RevResp
  all_approved : Bool

/-- Result of `_vertical_decision`. -/
structure VDecision where
  final_decision : String
  rounds : List VIter
  consensus_reached : Bool
  structure_used : String
  solver_role : Option String
  reviewer_roles : List String

/-- Solver/reviewer split (lines 761-776): the first expert with role
`planner` is the solver and is removed from the reviewer list; otherwise
the first expert solves and the rest review.  `none` iff there are no
experts at all. -/
def solverReviewers (experts : List Expert) : Option (Expert × List Expert) :=
  match experts with
  | [] => none
  | e0 :: _ =>
      match experts.findIdx? (fun e => e.role == "planner") with
      | some i => (experts.get? i).map (fun p => (p, experts.eraseIdx i))
      | none => some (e0, experts.tail)

/-- The solver's recorded proposal, with the `except` fallback of
lines 842-843. -/
def solverOutput : Except String String → String
  | .ok o => o
  | .error msg => "[Solver error: " ++ msg ++ "]"

/-- A reviewer's recorded critique, with the `except` fallback of
lines 899-900. -/
def reviewerCritique : Except String String → String
  | .ok o => o
  | .error msg => "[Reviewer error: " ++ msg ++ "]"

/-- The response record returned by `_reviewer_task` (lines 904-908). -/
def reviewerResponse (orc : Nat → Except String String) (j : Nat) (r : Expert) : RevResp :=
  let critique := reviewerCritique (orc j)
  { reviewer := r.role
    critique := critique
    approved := pyIn "[APPROVED]" critique }

/-- All reviewer responses of one iteration.  The futures are collected in
submission order (lines 912-918), so the order is the reviewer order. -/
def reviewerResponses (reviewers : List Expert) (orc : Nat → Except String String) :
    List RevResp :=
  reviewers.enum.map (fun p => reviewerResponse orc p.1 p.2)

/-- The `all_approved` conjunction of one vertical iteration: initialized
`True`, overwritten with `all(...)` only when reviewers exist
(lines 847-920). -/
def vAllApproved (reviewers : List Expert) (rr : List RevResp) : Bool :=
  if reviewers.isEmpty then true else rr.all (·.approved)

/-- The iteration loop of `_vertical_decision` (fuel = remaining
iterations, `k` = current iteration number; the last two accumulators are
the current `proposal` and `all_approved` variables). -/
def vLoop (reviewers : List Expert) (sOrc : Nat → Except String String)
    (rOrc : Nat → Nat → Except String String) :
    Nat → Nat → List VIter → String → Bool → List VIter × String × Bool
  | 0, _, rounds, prop, lastAll => (rounds, prop, lastAll)
  | n + 1, k, rounds, _, _ =>
      let prop := solverOutput (sOrc k)
      let rr := reviewerResponses reviewers (rOrc k)
      let allA := vAllApproved reviewers rr
      let rounds' := rounds ++ [⟨k, prop, rr, allA⟩]
      if allA then (rounds', prop, allA)
      else vLoop reviewers sOrc rOrc n (k + 1) rounds' prop allA

/-- `_vertical_decision`: solver proposes (oracle `sOrc`, per iteration),
reviewers critique in parallel (oracle `rOrc`, per iteration and reviewer
position), loop until all approve or the budget is exhausted. -/
def verticalDecision (experts : List Expert) (sOrc : Nat → Except String String)
    (rOrc : Nat → Nat → Except String String) (max_iterations : Nat := 3) : VDecision :=
  match solverReviewers experts with
  | none =>
      { final_decision := "No solver agent available"
        rounds := []
        consensus_reached := false
        structure_used := "vertical"
        solver_role := none
        reviewer_roles := [] }
  | some (solver, reviewers) =>
      let r := vLoop reviewers sOrc rOrc max_iterations 1 [] "" true
      { final_decision := r.2.1
        rounds := r.1
        consensus_reached := if reviewers.isEmpty then true else r.2.2
        structure_used := "vertical"
        solver_role := some solver.role
        reviewer_roles := reviewers.map (·.role) }

/-! ### Stage 1: `recruit_experts` (orchestrator.py lines 407-584)

Only the interpretation of the parsed LLM response is modelled (the prompt
build and the single LLM call are oracle-abstracted into `response`).
Experts keep their raw JSON field values, as Python does; `none` models a
raised exception (`parsed.get` on a non-dict, iterating a non-sequence
`experts` value, `expert_data.get` on a non-dict element, or the
`ValueError` for an empty URL list). -/

/-- A materialized expert record of the recruitment stage (the dynamic
`role`/`responsibilities`/`contract` values are kept as parsed). -/
structure RExpert where
  role : JsonVal
  responsibilities : JsonVal
  contract : JsonVal
  endpoint : String
  index : Nat

/-- The default single executor expert of lines 516-524. -/
def defaultExpert (urls : List String) : RExpert :=
  { role := .str "executor"
    responsibilities := .str "Execute the given task"
    contract := .str "You are an executor agent. Complete the assigned task thoroughly."
    endpoint := urls.headD ""
    index := 0 }

/-- Endpoint assignment of lines 484-499: round-robin pick, falling back to
the first URL when the picked entry is blank. -/
def expertEndpoint (urls : List String) (idx : Nat) : String :=
  let e0 := urls.getD (idx % urls.length) ""
  if pyStrip e0 == "" then urls.headD "" else e0

/-- The expert-materialization loop of lines 483-507 over the (already
truncated) parsed list, carrying the enumeration index. -/
def buildExperts (urls : List String) : List JsonVal → Nat → Option (List RExpert)
  | [], _ => some []
  | .obj ekvs :: rest, idx =>
      (match buildExperts urls rest (idx + 1) with
       | some tl =>
           some ({ role := pyGetD ekvs "role" (.str "executor")
                   responsibilities := pyGetD ekvs "responsibilities" (.str "")
                   contract := pyGetD ekvs "contract" (.str "")
                   endpoint := expertEndpoint urls idx
                   index := idx } :: tl)
       | none => none)
  | _ :: _, _ => none

/-- `recruit_experts`, producing the expert list (the communication
structure, execution order and reasoning do not interact with any claim
and are omitted). -/
def recruit_experts (urls : List String) (maxWorkers : Nat) (response : String) :
    Option (List RExpert) :=
  match parse_json_response response (.obj []) with
  | .obj kvs =>
      let raw := pyGetD kvs "experts" (.arr [])
      if urls.isEmpty then none
      else
        match raw with
        | .arr l =>
            (match buildExperts urls (l.take maxWorkers) 0 with
             | some es => if es.isEmpty then some [defaultExpert urls] else some es
             | none => none)
        | .str s => if s.isEmpty || maxWorkers == 0 then some [defaultExpert urls] else none
        | _ => none
  | _ => none

/-! ### The LLM backend chat handler (`serve_llm.py` lines 388-521)

The handler is modelled as a function of: whether the backend is
initialized, the decoded request body (`none` = the body was not valid
JSON, so `request.json()` raised `json.JSONDecodeError`), the generation
outcome, and the in-flight counter value at entry.  It returns the outcome
kind together with the counter value when the handler terminates.
`ChatOutcome.crash` models an uncaught exception escaping the handler
(`data.get` raising `AttributeError` because the valid-JSON body is not an
object); on that path the counter is never decremented. -/

inductive ChatOutcome : Type where
  | noBackend : ChatOutcome
  | badJson : ChatOutcome
  | crash : ChatOutcome
  | badPrompt : ChatOutcome
  | genError : ChatOutcome
  | ok : ChatOutcome

/-- `data.get("prompt") or data.get("input")`. -/
def extractPrompt (kvs : List (String × JsonVal)) : Option JsonVal :=
  match pyGet kvs "prompt" with
  | some v => if pyTruthy v then some v else pyGet kvs "input"
  | none => pyGet kvs "input"

/-- `handle_chat` control flow, tracking `_inflight_count`. -/
def handle_chat (backendUp : Bool) (body : Option JsonVal)
    (gen : Except String String) (inflight : Nat) : ChatOutcome × Nat :=
  if !backendUp then (.noBackend, inflight)
  else
    let n1 := inflight + 1
    match body with
    | none => (.badJson, n1 - 1)
    | some (.obj kvs) =>
        (match extractPrompt kvs with
         | some (.str s) =>
             if s.isEmpty then (.badPrompt, n1 - 1)
             else
               match gen with
               | .error _ => (.genError, n1 - 1)
               | .ok _ => (.ok, n1 - 1)
         | _ => (.badPrompt, n1 - 1))
    | some _ => (.crash, n1)

/-- Concatenation of a list of strings (used to state what the accumulated
discussion history consists of). -/
def concatStrs : List String → String
  | [] => ""
  | s :: t => s ++ concatStrs t

/-! ### Concrete fixtures used by witnesses and counterexamples -/

/-- A single executor expert. -/
def wExpertA : Expert := ⟨"executor", "", "", "http://agent-b:8102/subtask", 0⟩

/-- A planner expert (vertical solver). -/
def wExpertP : Expert := ⟨"planner", "", "", "u1", 0⟩

/-- A critic expert (vertical reviewer). -/
def wExpertC : Expert := ⟨"critic", "", "", "u2", 1⟩

/-- Horizontal worker oracle: no consensus in round 1, consensus from
round 2 on. -/
def wOrcH : Nat → Nat → Except String String :=
  fun k _ => if k == 1 then .ok "still thinking" else .ok "[CONSENSUS] done"

/-- Synthesis oracle. -/
def wSynth : String → String := fun h => "PLAN: " ++ h

/-- Vertical solver oracle. -/
def wSolverOrc : Nat → Except String String := fun k => .ok ("proposal " ++ toString k)

/-- Vertical reviewer oracle: approval from iteration 2 on. -/
def wReviewOrc : Nat → Nat → Except String String :=
  fun k _ => if k == 1 then .ok "needs work" else .ok "[APPROVED] good"

/-! ## Support lemmas -/

/-! ### Characterizations of `isPrefList` and `hasSub` -/

theorem isPrefList_iff : ∀ p s : List Char, isPrefList p s = true ↔ ∃ r, s = p ++ r
  | [], s => by simp [isPrefList]
  | a :: as, [] => by simp [isPrefList]
  | a :: as, b :: bs => by
      simp only [isPrefList, Bool.and_eq_true, beq_iff_eq]
      constructor
      · rintro ⟨rfl, h⟩
        obtain ⟨r, rfl⟩ := (isPrefList_iff as bs).mp h
        exact ⟨r, rfl⟩
      · rintro ⟨r, h⟩
        rw [List.cons_append] at h
        injection h with h1 h2
        exact ⟨h1.symm, (isPrefList_iff as bs).mpr ⟨r, h2⟩⟩

theorem hasSub_iff : ∀ pat s : List Char, hasSub pat s = true ↔ ∃ l r, s = l ++ (pat ++ r)
  | pat, [] => by
      simp only [hasSub, List.isEmpty_iff]
      constructor
      · rintro rfl; exact ⟨[], [], rfl⟩
      · rintro ⟨l, r, h⟩
        rcases List.append_eq_nil.mp h.symm with ⟨rfl, h2⟩
        exact (List.append_eq_nil.mp h2).1
  | pat, c :: t => by
      simp only [hasSub, Bool.or_eq_true, isPrefList_iff, hasSub_iff pat t]
      constructor
      · rintro (⟨r, hr⟩ | ⟨l, r, h⟩)
        · exact ⟨[], r, by simpa using hr⟩
        · exact ⟨c :: l, r, by simp [h]⟩
      · rintro ⟨l, r, h⟩
        cases l with
        | nil => exact .inl ⟨r, by simpa using h⟩
        | cons x xs =>
            rw [List.cons_append] at h
            injection h with h1 h2
            exact .inr ⟨xs, r, h2⟩

theorem hasSub_of_parts (pat l r : List Char) : hasSub pat (l ++ (pat ++ r)) = true :=
  (hasSub_iff pat _).mpr ⟨l, r, rfl⟩

/-- Where an occurrence of `pat` inside `a ++ b` can live: wholly inside
`a`, wholly inside `b`, or spanning the border with a nonempty part on each
side. -/
theorem occurrence_split (pat a b l r : List Char)
    (h : a ++ b = l ++ (pat ++ r)) :
    (∃ l' r', a = l' ++ (pat ++ r')) ∨
    (∃ l' r', b = l' ++ (pat ++ r')) ∨
    (∃ p q, pat = p ++ q ∧ p ≠ [] ∧ q ≠ [] ∧ (∃ l', a = l' ++ p) ∧ (∃ r', b = q ++ r')) := by
  rcases List.append_eq_append_iff.mp h with ⟨a', _, hb⟩ | ⟨c', ha, hd⟩
  · exact .inr (.inl ⟨a', r, hb⟩)
  · rcases List.append_eq_append_iff.mp hd with ⟨p', hc, _⟩ | ⟨k, hp, hb⟩
    · exact .inl ⟨l, p', by rw [ha, hc]⟩
    · cases c' with
      | nil =>
          refine .inr (.inl ⟨[], r, ?_⟩)
          rw [List.nil_append] at hp
          rw [List.nil_append, hb, hp]
      | cons x xs =>
          cases k with
          | nil =>
              refine .inl ⟨l, [], ?_⟩
              rw [List.append_nil] at hp
              rw [ha, hp, List.append_nil]
          | cons y ys =>
              exact .inr (.inr ⟨x :: xs, y :: ys, hp, List.cons_ne_nil x xs,
                List.cons_ne_nil y ys, ⟨l, ha⟩, ⟨r, hb⟩⟩)

/-- Reduce the spanning-side condition to a bounded check over the prefixes
of the (concrete) pattern. -/
theorem spanFree_intro (pat pre : List Char)
    (hb : ∀ p ∈ pat.inits, p ≠ [] → ¬ p <:+ pre) :
    ∀ p q, pat = p ++ q → p ≠ [] → ∀ l', pre ≠ l' ++ p := by
  intro p q hpq hne l' hpre
  exact hb p ((List.mem_inits _ _).mpr ⟨q, hpq.symm⟩) hne ⟨l', hpre.symm⟩

/-- A pattern ending in `c` cannot occur in `pre ++ (m ++ [c])` when it does
not occur in `pre`, no nonempty prefix of it is a suffix of `pre`, and the
pattern without its final `c` does not occur in `m ++ [c]`. -/
theorem hasSub_wrap_false (pre m patO : List Char) (c : Char)
    (h1 : hasSub (patO ++ [c]) pre = false)
    (h2 : ∀ p q, patO ++ [c] = p ++ q → p ≠ [] → ∀ l', pre ≠ l' ++ p)
    (h3 : hasSub patO (m ++ [c]) = false) :
    hasSub (patO ++ [c]) (pre ++ (m ++ [c])) = false := by
  rw [Bool.eq_false_iff]
  intro hx
  obtain ⟨l, r, heq⟩ := (hasSub_iff _ _).mp hx
  rcases occurrence_split _ _ _ _ _ heq with ⟨l', r', hA⟩ | ⟨l', r', hB⟩ |
    ⟨p, q, hpq, hpne, _, ⟨l', hsuf⟩, _⟩
  · rw [hA, hasSub_of_parts] at h1
    exact Bool.noConfusion h1
  · rw [hB] at h3
    rw [show l' ++ (patO ++ [c] ++ r') = l' ++ (patO ++ ([c] ++ r')) by
      simp [List.append_assoc]] at h3
    rw [hasSub_of_parts] at h3
    exact Bool.noConfusion h3
  · exact h2 p q hpq hpne l' hsuf

/-- An `"[Agent error: <msg>]"` sentinel contains `[CONSENSUS]` only when
the message itself smuggles in `[CONSENSUS` (possibly completed by the
closing bracket). -/
theorem agent_error_not_consensus (msg : String)
    (h : hasSub "[CONSENSUS".data (msg.data ++ [']']) = false) :
    pyIn "[CONSENSUS]" ("[Agent error: " ++ msg ++ "]") = false := by
  have hdata : ("[Agent error: " ++ msg ++ "]").data
      = "[Agent error: ".data ++ (msg.data ++ [']']) := by
    rw [String.data_append, String.data_append, List.append_assoc]
  unfold pyIn
  rw [hdata, show "[CONSENSUS]".data = "[CONSENSUS".data ++ [']'] from rfl]
  refine hasSub_wrap_false _ _ _ _ (by decide) ?_ h
  exact spanFree_intro _ _ (by decide)

/-- Likewise for `"[Reviewer error: <msg>]"` and `[APPROVED]`. -/
theorem reviewer_error_not_approved (msg : String)
    (h : hasSub "[APPROVED".data (msg.data ++ [']']) = false) :
    pyIn "[APPROVED]" ("[Reviewer error: " ++ msg ++ "]") = false := by
  have hdata : ("[Reviewer error: " ++ msg ++ "]").data
      = "[Reviewer error: ".data ++ (msg.data ++ [']']) := by
    rw [String.data_append, String.data_append, List.append_assoc]
  unfold pyIn
  rw [hdata, show "[APPROVED]".data = "[APPROVED".data ++ [']'] from rfl]
  refine hasSub_wrap_false _ _ _ _ (by decide) ?_ h
  exact spanFree_intro _ _ (by decide)

/-! ## Claims -/

/-- C1: for every evaluation with success threshold `T > 0`: a parsed score
`≥ T` forces `goal_achieved = true` and `should_iterate = false`; a parsed
score `< T` forces `goal_achieved = false` and `should_iterate = true`
unless `iteration + 1 ≥ max_iterations`; consequently every evaluation with
`goal_achieved = true` has `score ≥ T`.  (The returned score equals the
parsed score, so the bounds are stated on the returned evaluation.) -/
theorem applyOverrides_score (T : Int) (it mi : Nat) (p : ParsedEval) :
    (applyOverrides T it mi p).score = p.score := rfl

theorem applyOverrides_goal_pos (T : Int) (it mi : Nat) (p : ParsedEval)
    (hT : 0 < T) (hs : intToRat T ≤ p.score) :
    (applyOverrides T it mi p).goal_achieved = true ∧
      (applyOverrides T it mi p).should_iterate = false := by
  simp [applyOverrides, hT, hs]

theorem applyOverrides_goal_neg (T : Int) (it mi : Nat) (p : ParsedEval)
    (hT : 0 < T) (hs : ¬ intToRat T ≤ p.score) :
    (applyOverrides T it mi p).goal_achieved = false ∧
      (applyOverrides T it mi p).should_iterate =
        (if mi ≤ it + 1 then false else true) := by
  simp [applyOverrides, hT, hs]

theorem c1_threshold_override (T : Int) (hT : 0 < T) (it mi : Nat) (resp : String)
    (ev : EvaluationResult) (h : evaluate_results T it mi resp = some ev) :
    (intToRat T ≤ ev.score → ev.goal_achieved = true ∧ ev.should_iterate = false) ∧
    (ev.score < intToRat T → ev.goal_achieved = false ∧
      (ev.should_iterate = true ↔ it + 1 < mi)) ∧
    (ev.goal_achieved = true → intToRat T ≤ ev.score) := by
  obtain ⟨p, _, rfl⟩ := Option.map_eq_some'.mp h
  rw [applyOverrides_score]
  by_cases hs : intToRat T ≤ p.score
  · obtain ⟨hg, hi⟩ := applyOverrides_goal_pos T it mi p hT hs
    exact ⟨fun _ => ⟨hg, hi⟩, fun hlt => absurd hs (not_le.mpr hlt), fun _ => hs⟩
  · obtain ⟨hg, hi⟩ := applyOverrides_goal_neg T it mi p hT hs
    refine ⟨fun hge => absurd hge hs, fun _ => ⟨hg, ?_⟩,
      fun hgt => by rw [hg] at hgt; exact Bool.noConfusion hgt⟩
    rw [hi]
    by_cases hm : mi ≤ it + 1
    · simp only [if_pos hm]
      constructor
      · intro hit; exact Bool.noConfusion hit
      · intro hlt; omega
    · simp only [if_neg hm]
      constructor
      · intro _; omega
      · intro _; trivial

/-- Witness for C1 at `T = 70`, iteration 0 of 3, response
`{"score": 90}`. -/
theorem c1_threshold_override_witness :
    (0 : Int) < 70 ∧
    evaluate_results 70 0 3 "\x7b\"score\": 90\x7d" =
      some ⟨true, 90, none, none, "", [], false⟩ ∧
    ((⟨true, 90, none, none, "", [], false⟩ : EvaluationResult).goal_achieved = true ∧
      (⟨true, 90, none, none, "", [], false⟩ : EvaluationResult).should_iterate = false) :=
  ⟨by decide, rfl,
    (c1_threshold_override 70 (by decide) 0 3 "\x7b\"score\": 90\x7d"
      ⟨true, 90, none, none, "", [], false⟩ rfl).1 (by decide)⟩

/-- Budget override: an evaluation can only ask for another iteration when
the budget still has room (`iteration + 1 < max_iterations`). -/
theorem should_iterate_budget (T : Int) (it mi : Nat) (p : ParsedEval)
    (h : (applyOverrides T it mi p).should_iterate = true) : it + 1 < mi := by
  by_cases hm : mi ≤ it + 1
  · exfalso
    have : (applyOverrides T it mi p).should_iterate = false := by
      simp [applyOverrides, hm]
    rw [this] at h
    exact Bool.noConfusion h
  · omega

/-- The loop invariant of `run_workflow`: started at `iteration < mi` with
fuel covering the remaining budget, the loop terminates with a final
iteration `< mi` and adds at most `mi - iteration` history entries, as long
as every in-budget evaluation completes. -/
theorem workflowLoop_spec (orc : Nat → String) (T : Int) (mi : Nat) :
    ∀ fuel it hist, it < mi → mi - it ≤ fuel →
      (∀ j, it ≤ j → j < mi → (evaluate_results T j mi (orc j)).isSome = true) →
      ∃ r, workflowLoop orc T mi fuel it hist = some r ∧
        r.1 < mi ∧ r.2.length ≤ hist.length + (mi - it) := by
  intro fuel
  induction fuel with
  | zero => intro it hist hit hfu _; omega
  | succ n ih =>
      intro it hist hit hfu hsome
      have hev := hsome it le_rfl hit
      obtain ⟨ev, heq⟩ := Option.isSome_iff_exists.mp hev
      obtain ⟨p, _, rfl⟩ := Option.map_eq_some'.mp heq
      rw [show workflowLoop orc T mi (n + 1) it hist =
        (if it < mi then
          match evaluate_results T it mi (orc it) with
          | none => none
          | some ev =>
              let history' := hist ++ [ev]
              if ev.should_iterate then workflowLoop orc T mi n (it + 1) history'
              else some (it, history')
        else some (it, hist)) from rfl]
      rw [if_pos hit, heq]
      by_cases hi : (applyOverrides T it mi p).should_iterate = true
      · have hlt := should_iterate_budget T it mi p hi
        simp only [hi, if_true]
        obtain ⟨r, hr, hr1, hr2⟩ :=
          ih (it + 1) (hist ++ [applyOverrides T it mi p]) hlt (by omega)
            (fun j hj1 hj2 => hsome j (by omega) hj2)
        refine ⟨r, hr, hr1, ?_⟩
        have : (hist ++ [applyOverrides T it mi p]).length = hist.length + 1 := by
          simp
        omega
      · rw [Bool.not_eq_true] at hi
        simp only [hi, if_false]
        refine ⟨(it, hist ++ [applyOverrides T it mi p]), rfl, hit, ?_⟩
        simp only [List.length_append, List.length_cons, List.length_nil]
        omega

/-- C2 counterexample: with `max_iterations = 0` the loop body never runs
and the loop exits with `state.iteration = 0`, which is not
`< max_iterations`; the claim quantifies over any `max_iterations`. -/
theorem c2_counterexample :
    run_workflow_loop (fun _ => "\x7b\"score\": 10\x7d") 70 0 = some (0, []) ∧
      ¬ ((0 : Nat) < 0) :=
  ⟨rfl, by decide⟩

/-- C2 (amended): for every workflow run with `max_iterations ≥ 1` in which
each in-budget evaluation completes, the Recruit-Deliberate-Execute-
Evaluate loop exits after at most `max_iterations` passes, and at loop exit
`len(iteration_history) ≤ max_iterations` and
`state.iteration < max_iterations`. -/
theorem c2_loop_bounds (orc : Nat → String) (T : Int) (mi : Nat) (h1 : 1 ≤ mi)
    (hsome : ∀ j, j < mi → (evaluate_results T j mi (orc j)).isSome = true) :
    ∃ r, run_workflow_loop orc T mi = some r ∧ r.1 < mi ∧ r.2.length ≤ mi := by
  obtain ⟨r, hr, hr1, hr2⟩ :=
    workflowLoop_spec orc T mi mi 0 [] (by omega) (by omega)
      (fun j _ hj2 => hsome j hj2)
  exact ⟨r, hr, hr1, by simpa using hr2⟩

/-- Witness for C2 (amended) at `max_iterations = 3`, threshold 70, with
every evaluation answering `{"score": 90}`. -/
theorem c2_loop_bounds_witness :
    1 ≤ 3 ∧
    ∃ r, run_workflow_loop (fun _ => "\x7b\"score\": 90\x7d") 70 3 = some r ∧
      r.1 < 3 ∧ r.2.length ≤ 3 :=
  ⟨by decide,
    c2_loop_bounds (fun _ => "\x7b\"score\": 90\x7d") 70 3 (by decide)
      (fun j hj => by interval_cases j <;> rfl)⟩

/-- C3 counterexample: on input `"null"` with the non-null default `{}`
(the default every caller passes), `json.loads` succeeds with `None`, and
the parser returns null although the default is non-null.  This refutes
"the returned value is non-null whenever the default is non-null". -/
theorem c3_counterexample :
    parse_json_response "null" (.obj []) = .null ∧ JsonVal.obj [] ≠ .null :=
  ⟨rfl, fun h => JsonVal.noConfusion h⟩

/-- Case analysis of the decode-retry-default cascade. -/
theorem fallbackParse_spec (o : Option JsonVal) (sub : Option String) (d : JsonVal) :
    (∃ v, o = some v ∧ fallbackParse o sub d = v) ∨
    (∃ s2 v, sub = some s2 ∧ jsonParse s2 = some v ∧ fallbackParse o sub d = v) ∨
    fallbackParse o sub d = d := by
  cases o with
  | some v => exact .inl ⟨v, rfl, rfl⟩
  | none =>
      cases sub with
      | none => exact .inr (.inr rfl)
      | some s2 =>
          rcases h3 : jsonParse s2 with _ | v
          · refine .inr (.inr ?_)
            simp [fallbackParse, h3]
          · refine .inr (.inl ⟨s2, v, rfl, h3, ?_⟩)
            simp [fallbackParse, h3]

/-- C3 (amended): for every input string and every default value, the
response parser never raises and returns either the strictly decoded JSON
value (of the fence-stripped input, or of the brace-delimited retry
substring) or the provided default; the returned value can be null only
when the default is null or the decoded value itself is JSON null. -/
theorem c3_parser_total (s : String) (d : JsonVal) :
    ((∃ v, jsonParse (stripFences s) = some v ∧ parse_json_response s d = v) ∨
     (∃ sub v, braceSlice (stripFences s) = some sub ∧ jsonParse sub = some v ∧
        parse_json_response s d = v) ∨
     parse_json_response s d = d) ∧
    (parse_json_response s d = .null → d = .null ∨
      jsonParse (stripFences s) = some .null ∨
      (∃ sub, braceSlice (stripFences s) = some sub ∧ jsonParse sub = some .null)) := by
  have heq : parse_json_response s d =
      fallbackParse (jsonParse (stripFences s)) (braceSlice (stripFences s)) d := rfl
  have hmain :
      (∃ v, jsonParse (stripFences s) = some v ∧ parse_json_response s d = v) ∨
      (∃ sub v, braceSlice (stripFences s) = some sub ∧ jsonParse sub = some v ∧
        parse_json_response s d = v) ∨
      parse_json_response s d = d := by
    rw [heq]
    rcases fallbackParse_spec (jsonParse (stripFences s)) (braceSlice (stripFences s)) d
      with ⟨v, hv, he⟩ | ⟨s2, v, hs2, hv, he⟩ | he
    · exact .inl ⟨v, hv, he⟩
    · exact .inr (.inl ⟨s2, v, hs2, hv, he⟩)
    · exact .inr (.inr he)
  refine ⟨hmain, fun hnull => ?_⟩
  rcases hmain with ⟨v, hv, he⟩ | ⟨sub, v, hsub, hv, he⟩ | he
  · right; left; rw [hv, he.symm.trans hnull]
  · refine .inr (.inr ⟨sub, hsub, ?_⟩)
    rw [hv, he.symm.trans hnull]
  · exact .inl (he.symm.trans hnull)

/-- Witness for C3 (amended) discharging its inner implication at the
concrete input `"null"` with default `{}`. -/
theorem c3_parser_total_witness :
    parse_json_response "null" (.obj []) = .null ∧
    (JsonVal.obj [] = .null ∨
      jsonParse (stripFences "null") = some .null ∨
      (∃ sub, braceSlice (stripFences "null") = some sub ∧ jsonParse sub = some .null)) :=
  ⟨rfl, (c3_parser_total "null" (.obj [])).2 rfl⟩

/-- The horizontal round loop, started below the first all-consensus round
`K` with enough remaining rounds, stops exactly at round `K` with
`consensus_reached = true`, having recorded one entry per issued round. -/
theorem hLoop_first_consensus (experts : List Expert)
    (orc : Nat → Nat → Except String String) (K : Nat)
    (hcons : allConsensus (roundResponses experts (orc K)) = true) :
    ∀ n k acc hist, k ≤ K → K < k + n →
      (∀ j, k ≤ j → j < K → allConsensus (roundResponses experts (orc j)) = false) →
      ∃ acc2 hist2, hLoop experts orc n k acc hist = (acc2, true, hist2) ∧
        acc2.length = acc.length + (K + 1 - k) := by
  intro n
  induction n with
  | zero => intro k acc hist h1 h2 _; omega
  | succ m ih =>
      intro k acc hist h1 h2 hprev
      by_cases hk : k = K
      · subst hk
        refine ⟨acc ++ [(k, roundResponses experts (orc k))],
          hist ++ roundSummary k (roundResponses experts (orc k)), ?_, ?_⟩
        · simp [hLoop, hcons]
        · simp only [List.length_append, List.length_cons, List.length_nil]
          omega
      · have hkK : k < K := lt_of_le_of_ne h1 hk
        have hne := hprev k le_rfl hkK
        obtain ⟨acc2, hist2, hrec, hlen⟩ :=
          ih (k + 1) (acc ++ [(k, roundResponses experts (orc k))])
            (hist ++ roundSummary k (roundResponses experts (orc k)))
            (by omega) (by omega) (fun j hj1 hj2 => hprev j (by omega) hj2)
        refine ⟨acc2, hist2, ?_, ?_⟩
        · simp only [hLoop, hne, Bool.false_eq_true, if_false]
          exact hrec
        · simp only [List.length_append, List.length_cons, List.length_nil] at hlen
          omega

/-- C4: in horizontal deliberation with at least one expert, if round `K`
is the first round in which every expert's response contains `[CONSENSUS]`
(and `K` is within the round budget), then no round `K + 1` is issued: the
returned decision has exactly `K` recorded discussion rounds and
`consensus_reached = true`. -/
theorem c4_horizontal_consensus_stops (experts : List Expert)
    (orc : Nat → Nat → Except String String) (synth : String → String)
    (maxRounds K : Nat) (hne : experts ≠ []) (hK1 : 1 ≤ K) (hKm : K ≤ maxRounds)
    (hcons : allConsensus (roundResponses experts (orc K)) = true)
    (hprev : ∀ j, 1 ≤ j → j < K → allConsensus (roundResponses experts (orc j)) = false) :
    (horizontalDiscussion experts orc synth maxRounds).rounds.length = K ∧
    (horizontalDiscussion experts orc synth maxRounds).consensus_reached = true := by
  obtain ⟨acc2, hist2, hrun, hlen⟩ :=
    hLoop_first_consensus experts orc K hcons maxRounds 1 [] "" hK1 (by omega) hprev
  have h1 : (horizontalDiscussion experts orc synth maxRounds).rounds =
      (hLoop experts orc maxRounds 1 [] "").1 := rfl
  have h2 : (horizontalDiscussion experts orc synth maxRounds).consensus_reached =
      (hLoop experts orc maxRounds 1 [] "").2.1 := rfl
  rw [h1, h2, hrun]
  simp only [List.length_nil, Nat.zero_add] at hlen
  exact ⟨by simpa using hlen.trans (by omega), rfl⟩

/-- Witness for C4 with one expert, consensus first reached in round 2 of
at most 3. -/
theorem c4_horizontal_consensus_stops_witness :
    [wExpertA] ≠ [] ∧ (1 : Nat) ≤ 2 ∧ (2 : Nat) ≤ 3 ∧
    allConsensus (roundResponses [wExpertA] (wOrcH 2)) = true ∧
    (horizontalDiscussion [wExpertA] wOrcH wSynth 3).rounds.length = 2 ∧
    (horizontalDiscussion [wExpertA] wOrcH wSynth 3).consensus_reached = true :=
  ⟨List.cons_ne_nil _ _, by decide, by decide, rfl,
    c4_horizontal_consensus_stops [wExpertA] wOrcH wSynth 3 2 (List.cons_ne_nil _ _)
      (by decide) (by decide) rfl (fun j h1 h2 => by interval_cases j <;> rfl)⟩

/-- With no reviewers, the first vertical iteration immediately approves
the first solver proposal. -/
theorem vLoop3_no_reviewers (sOrc : Nat → Except String String)
    (rOrc : Nat → Nat → Except String String) :
    vLoop [] sOrc rOrc 3 1 [] "" true =
      ([⟨1, solverOutput (sOrc 1), [], true⟩], solverOutput (sOrc 1), true) := rfl

/-- The vertical iteration loop, started below the first all-approved
iteration `K` with enough remaining budget, stops exactly at iteration `K`
returning that iteration's proposal. -/
theorem vLoop_first_approved (reviewers : List Expert)
    (sOrc : Nat → Except String String) (rOrc : Nat → Nat → Except String String)
    (K : Nat) (hrev : reviewers ≠ [])
    (happr : (reviewerResponses reviewers (rOrc K)).all (·.approved) = true) :
    ∀ n k rounds prop lastAll, k ≤ K → K < k + n →
      (∀ j, k ≤ j → j < K → (reviewerResponses reviewers (rOrc j)).all (·.approved) = false) →
      ∃ rounds2, vLoop reviewers sOrc rOrc n k rounds prop lastAll =
        (rounds2, solverOutput (sOrc K), true) ∧
        rounds2.length = rounds.length + (K + 1 - k) := by
  have hie : reviewers.isEmpty = false := by
    cases reviewers with
    | nil => exact absurd rfl hrev
    | cons a t => rfl
  intro n
  induction n with
  | zero => intro k rounds prop lastAll h1 h2 _; omega
  | succ m ih =>
      intro k rounds prop lastAll h1 h2 hprev
      by_cases hk : k = K
      · subst hk
        have hA : vAllApproved reviewers (reviewerResponses reviewers (rOrc k)) = true := by
          simp [vAllApproved, hie, happr]
        refine ⟨rounds ++
          [⟨k, solverOutput (sOrc k), reviewerResponses reviewers (rOrc k), true⟩], ?_, ?_⟩
        · simp [vLoop, hA]
        · simp only [List.length_append, List.length_cons, List.length_nil]
          omega
      · have hkK : k < K := lt_of_le_of_ne h1 hk
        have hne := hprev k le_rfl hkK
        have hA : vAllApproved reviewers (reviewerResponses reviewers (rOrc k)) = false := by
          simp [vAllApproved, hie, hne]
        obtain ⟨rounds2, hrec, hlen⟩ :=
          ih (k + 1)
            (rounds ++
              [⟨k, solverOutput (sOrc k), reviewerResponses reviewers (rOrc k), false⟩])
            (solverOutput (sOrc k)) false
            (by omega) (by omega) (fun j hj1 hj2 => hprev j (by omega) hj2)
        refine ⟨rounds2, ?_, ?_⟩
        · simp only [vLoop, hA, Bool.false_eq_true, if_false]
          exact hrec
        · simp only [List.length_append, List.length_cons, List.length_nil] at hlen
          omega

/-- C5: in vertical deliberation, if iteration `K ≤ 3` is the first in
which every reviewer's critique contains `[APPROVED]`, no further iteration
is issued and `consensus_reached = true` (so all-approval in iteration 1
yields exactly one recorded round); and with an empty reviewer set the
first solver proposal is returned after one iteration with
`consensus_reached = true`. -/
theorem c5_vertical_approval :
    (∀ (experts : List Expert) (sOrc : Nat → Except String String)
        (rOrc : Nat → Nat → Except String String) (s : Expert),
        solverReviewers experts = some (s, []) →
        (verticalDecision experts sOrc rOrc).rounds.length = 1 ∧
        (verticalDecision experts sOrc rOrc).consensus_reached = true ∧
        (verticalDecision experts sOrc rOrc).final_decision = solverOutput (sOrc 1)) ∧
    (∀ (experts : List Expert) (sOrc : Nat → Except String String)
        (rOrc : Nat → Nat → Except String String) (s : Expert) (rs : List Expert)
        (K : Nat),
        solverReviewers experts = some (s, rs) → rs ≠ [] → 1 ≤ K → K ≤ 3 →
        (reviewerResponses rs (rOrc K)).all (·.approved) = true →
        (∀ j, 1 ≤ j → j < K → (reviewerResponses rs (rOrc j)).all (·.approved) = false) →
        (verticalDecision experts sOrc rOrc).rounds.length = K ∧
        (verticalDecision experts sOrc rOrc).consensus_reached = true) := by
  constructor
  · intro experts sOrc rOrc s hsr
    have hVD : verticalDecision experts sOrc rOrc =
        { final_decision := (vLoop [] sOrc rOrc 3 1 [] "" true).2.1
          rounds := (vLoop [] sOrc rOrc 3 1 [] "" true).1
          consensus_reached :=
            if ([] : List Expert).isEmpty then true else (vLoop [] sOrc rOrc 3 1 [] "" true).2.2
          structure_used := "vertical"
          solver_role := some s.role
          reviewer_roles := ([] : List Expert).map (·.role) } := by
      unfold verticalDecision
      rw [hsr]
    rw [hVD, vLoop3_no_reviewers]
    exact ⟨rfl, rfl, rfl⟩
  · intro experts sOrc rOrc s rs K hsr hrne hK1 hK3 happr hprev
    obtain ⟨rounds2, hrun, hlen⟩ :=
      vLoop_first_approved rs sOrc rOrc K hrne happr 3 1 [] "" true hK1 (by omega) hprev
    have hVD : verticalDecision experts sOrc rOrc =
        { final_decision := (vLoop rs sOrc rOrc 3 1 [] "" true).2.1
          rounds := (vLoop rs sOrc rOrc 3 1 [] "" true).1
          consensus_reached :=
            if rs.isEmpty then true else (vLoop rs sOrc rOrc 3 1 [] "" true).2.2
          structure_used := "vertical"
          solver_role := some s.role
          reviewer_roles := rs.map (·.role) } := by
      unfold verticalDecision
      rw [hsr]
    rw [hVD, hrun]
    simp only [List.length_nil, Nat.zero_add] at hlen
    refine ⟨by simpa using hlen.trans (by omega), ?_⟩
    by_cases hie : rs.isEmpty
    · simp [hie]
    · simp [hie]

/-- Witness for C5: the empty-reviewer part with a lone planner, and the
first-approval part with a planner plus one critic approving first in
iteration 2. -/
theorem c5_vertical_approval_witness :
    (solverReviewers [wExpertP] = some (wExpertP, []) ∧
      (verticalDecision [wExpertP] wSolverOrc wReviewOrc).rounds.length = 1 ∧
      (verticalDecision [wExpertP] wSolverOrc wReviewOrc).consensus_reached = true ∧
      (verticalDecision [wExpertP] wSolverOrc wReviewOrc).final_decision =
        solverOutput (wSolverOrc 1)) ∧
    (solverReviewers [wExpertP, wExpertC] = some (wExpertP, [wExpertC]) ∧
      (reviewerResponses [wExpertC] (wReviewOrc 2)).all (·.approved) = true ∧
      (verticalDecision [wExpertP, wExpertC] wSolverOrc wReviewOrc).rounds.length = 2 ∧
      (verticalDecision [wExpertP, wExpertC] wSolverOrc wReviewOrc).consensus_reached = true) :=
  ⟨⟨rfl, c5_vertical_approval.1 [wExpertP] wSolverOrc wReviewOrc wExpertP rfl⟩,
    ⟨rfl, rfl,
      c5_vertical_approval.2 [wExpertP, wExpertC] wSolverOrc wReviewOrc wExpertP [wExpertC]
        2 rfl (List.cons_ne_nil _ _) (by decide) (by decide) rfl
        (fun j h1 h2 => by interval_cases j <;> rfl)⟩⟩

/-- The vertical loop only ever appends to the accumulated round list. -/
theorem vLoop_rounds_prefix (reviewers : List Expert)
    (sOrc : Nat → Except String String) (rOrc : Nat → Nat → Except String String) :
    ∀ n k rounds prop lastAll,
      ∃ tl, (vLoop reviewers sOrc rOrc n k rounds prop lastAll).1 = rounds ++ tl := by
  intro n
  induction n with
  | zero => intro k rounds prop lastAll; exact ⟨[], (List.append_nil _).symm⟩
  | succ m ih =>
      intro k rounds prop lastAll
      simp only [vLoop]
      split
      · exact ⟨[⟨k, solverOutput (sOrc k), reviewerResponses reviewers (rOrc k),
          vAllApproved reviewers (reviewerResponses reviewers (rOrc k))⟩], rfl⟩
      · obtain ⟨tl, htl⟩ := ih (k + 1)
          (rounds ++
            [⟨k, solverOutput (sOrc k), reviewerResponses reviewers (rOrc k),
              vAllApproved reviewers (reviewerResponses reviewers (rOrc k))⟩])
          (solverOutput (sOrc k))
          (vAllApproved reviewers (reviewerResponses reviewers (rOrc k)))
        refine ⟨⟨k, solverOutput (sOrc k), reviewerResponses reviewers (rOrc k),
          vAllApproved reviewers (reviewerResponses reviewers (rOrc k))⟩ :: tl, ?_⟩
        rw [htl, List.append_assoc]
        rfl

/-- The first issued vertical iteration is always recorded at the head of
the round list (with its solver proposal and one critique per reviewer). -/
theorem vLoop_first_round (reviewers : List Expert)
    (sOrc : Nat → Except String String) (rOrc : Nat → Nat → Except String String)
    (n k : Nat) (prop0 : String) (a0 : Bool) (hn : 1 ≤ n) :
    ∃ tl, (vLoop reviewers sOrc rOrc n k [] prop0 a0).1 =
      (⟨k, solverOutput (sOrc k), reviewerResponses reviewers (rOrc k),
        vAllApproved reviewers (reviewerResponses reviewers (rOrc k))⟩ : VIter) :: tl := by
  obtain ⟨m, rfl⟩ : ∃ m, n = m + 1 := ⟨n - 1, by omega⟩
  simp only [vLoop]
  split
  · exact ⟨[], rfl⟩
  · obtain ⟨tl, htl⟩ := vLoop_rounds_prefix reviewers sOrc rOrc m (k + 1)
      [⟨k, solverOutput (sOrc k), reviewerResponses reviewers (rOrc k),
        vAllApproved reviewers (reviewerResponses reviewers (rOrc k))⟩]
      (solverOutput (sOrc k))
      (vAllApproved reviewers (reviewerResponses reviewers (rOrc k)))
    exact ⟨tl, htl⟩

/-- C6 counterexample: a raising vertical solver call is recorded with the
sentinel `"[Solver error: <msg>]"`, not `"[Agent error: <msg>]"` as the
claim states for every deliberation worker call. -/
theorem c6_counterexample :
    (verticalDecision [wExpertP, wExpertC] (fun _ => Except.error "boom")
        (fun _ _ => Except.ok "fine")).final_decision = "[Solver error: boom]" ∧
    "[Solver error: boom]" ≠ "[Agent error: boom]" :=
  ⟨rfl, by decide⟩

/-- C6 (amended): a raising worker call is recorded as a sentinel response
— `"[Agent error: <msg>]"` for a horizontal expert, `"[Solver error:
<msg>]"` for the vertical solver, `"[Reviewer error: <msg>]"` for a
reviewer; such a response counts as neither consensus nor approval provided
the error text does not itself smuggle in the sentinel substring; and the
stage continues: the round still gets one response per expert (resp. one
critique per reviewer, with the reviewers of the errored solver's iteration
still run). -/
theorem c6_worker_error_handling :
    (∀ (experts : List Expert) (orc : Nat → Except String String) (i : Nat)
        (e : Expert) (msg : String),
        experts[i]? = some e → orc i = .error msg →
        hasSub "[CONSENSUS".data (msg.data ++ [']']) = false →
        (roundResponses experts orc).length = experts.length ∧
        (roundResponses experts orc)[i]? =
          some ⟨e.role, e.index, "[Agent error: " ++ msg ++ "]", false⟩) ∧
    (∀ (experts : List Expert) (sOrc : Nat → Except String String)
        (rOrc : Nat → Nat → Except String String) (s : Expert) (rs : List Expert)
        (msg : String),
        solverReviewers experts = some (s, rs) → sOrc 1 = .error msg →
        ∃ rd tl, (verticalDecision experts sOrc rOrc).rounds = rd :: tl ∧
          rd.proposal = "[Solver error: " ++ msg ++ "]" ∧
          rd.reviewer_responses.length = rs.length) ∧
    (∀ (reviewers : List Expert) (orc : Nat → Except String String) (j : Nat)
        (r : Expert) (msg : String),
        reviewers[j]? = some r → orc j = .error msg →
        hasSub "[APPROVED".data (msg.data ++ [']']) = false →
        (reviewerResponses reviewers orc).length = reviewers.length ∧
        (reviewerResponses reviewers orc)[j]? =
          some ⟨r.role, "[Reviewer error: " ++ msg ++ "]", false⟩) := by
  refine ⟨?_, ?_, ?_⟩
  · intro experts orc i e msg hi herr hmsg
    constructor
    · simp [roundResponses]
    · have hcons := agent_error_not_consensus msg hmsg
      simp [roundResponses, List.enum, hi, expertResponse, agentOutput, herr]
      exact hcons
  · intro experts sOrc rOrc s rs msg hsr herr
    have hVD : (verticalDecision experts sOrc rOrc).rounds =
        (vLoop rs sOrc rOrc 3 1 [] "" true).1 := by
      unfold verticalDecision
      rw [hsr]
    obtain ⟨tl, htl⟩ := vLoop_first_round rs sOrc rOrc 3 1 "" true (by omega)
    refine ⟨_, tl, hVD.trans htl, ?_, ?_⟩
    · show solverOutput (sOrc 1) = _
      rw [herr]
      rfl
    · show (reviewerResponses rs (rOrc 1)).length = rs.length
      simp [reviewerResponses]
  · intro reviewers orc j r msg hj herr hmsg
    constructor
    · simp [reviewerResponses]
    · have happ := reviewer_error_not_approved msg hmsg
      simp [reviewerResponses, List.enum, hj, reviewerResponse, reviewerCritique, herr]
      exact happ

/-- Witness for C6 (amended), instantiating all three parts with an
erroring worker whose message is `"boom"`. -/
theorem c6_worker_error_handling_witness :
    ((roundResponses [wExpertA] (fun _ => Except.error "boom")).length = 1 ∧
      (roundResponses [wExpertA] (fun _ => Except.error "boom"))[0]? =
        some ⟨"executor", 0, "[Agent error: boom]", false⟩) ∧
    (∃ rd tl,
      (verticalDecision [wExpertP, wExpertC] (fun _ => Except.error "boom")
          (fun _ _ => Except.ok "fine")).rounds = rd :: tl ∧
        rd.proposal = "[Solver error: boom]" ∧
        rd.reviewer_responses.length = 1) ∧
    ((reviewerResponses [wExpertC] (fun _ => Except.error "boom")).length = 1 ∧
      (reviewerResponses [wExpertC] (fun _ => Except.error "boom"))[0]? =
        some ⟨"critic", "[Reviewer error: boom]", false⟩) :=
  ⟨c6_worker_error_handling.1 [wExpertA] (fun _ => Except.error "boom") 0 wExpertA "boom"
      rfl rfl rfl,
    c6_worker_error_handling.2.1 [wExpertP, wExpertC] (fun _ => Except.error "boom")
      (fun _ _ => Except.ok "fine") wExpertP [wExpertC] "boom" rfl rfl,
    c6_worker_error_handling.2.2 [wExpertC] (fun _ => Except.error "boom") 0 wExpertC "boom"
      rfl rfl rfl⟩

/-- The horizontal loop appends one `"--- Round K ---"` summary to the
history for every recorded round — including a final consensus round. -/
theorem hLoop_history (experts : List Expert) (orc : Nat → Nat → Except String String) :
    ∀ n k acc hist,
      ∃ newR, (hLoop experts orc n k acc hist).1 = acc ++ newR ∧
        (hLoop experts orc n k acc hist).2.2 =
          hist ++ concatStrs (newR.map fun rd => roundSummary rd.1 rd.2) := by
  intro n
  induction n with
  | zero =>
      intro k acc hist
      exact ⟨[], (List.append_nil _).symm, by simp [hLoop, concatStrs]⟩
  | succ m ih =>
      intro k acc hist
      simp only [hLoop]
      split
      · refine ⟨[(k, roundResponses experts (orc k))], rfl, ?_⟩
        simp [concatStrs]
      · obtain ⟨newR, h1, h2⟩ := ih (k + 1) (acc ++ [(k, roundResponses experts (orc k))])
          (hist ++ roundSummary k (roundResponses experts (orc k)))
        refine ⟨(k, roundResponses experts (orc k)) :: newR, ?_, ?_⟩
        · rw [h1, List.append_assoc]
          rfl
        · rw [h2, String.append_assoc]
          rfl

/-- C7 counterexample: with one expert answering `[CONSENSUS]` in round 1,
the round reaches consensus and the protocol exits early — yet the
`"--- Round 1 ---"` summary *is* appended to the history passed to the
synthesis call (the source appends before checking consensus, lines
709-738), contradicting "contains a labeled round summary only for rounds
that did not reach consensus". -/
theorem c7_counterexample :
    (horizontalDiscussion [wExpertA] (fun _ _ => Except.ok "[CONSENSUS] agreed")
        wSynth 3).consensus_reached = true ∧
    (horizontalDiscussion [wExpertA] (fun _ _ => Except.ok "[CONSENSUS] agreed")
        wSynth 3).rounds.length = 1 ∧
    pyIn "--- Round 1 ---"
      (horizontalDiscussion [wExpertA] (fun _ _ => Except.ok "[CONSENSUS] agreed")
        wSynth 3).historyToSynth = true :=
  ⟨rfl, rfl, rfl⟩

/-- C7 (amended): the `"--- Round K ---"` summary is appended to the
discussion history for every issued round, including the round that
reached consensus; the early exit only prevents later rounds.  The history
passed to the synthesis call is exactly the concatenation of the summaries
of all recorded rounds, and the final decision is the synthesis of that
history. -/
theorem c7_history_contains_all_rounds (experts : List Expert)
    (orc : Nat → Nat → Except String String) (synth : String → String)
    (maxRounds : Nat) :
    (horizontalDiscussion experts orc synth maxRounds).historyToSynth =
      concatStrs ((horizontalDiscussion experts orc synth maxRounds).rounds.map
        (fun rd => roundSummary rd.1 rd.2)) ∧
    (horizontalDiscussion experts orc synth maxRounds).final_decision =
      synth ((horizontalDiscussion experts orc synth maxRounds).historyToSynth) := by
  obtain ⟨newR, h1, h2⟩ := hLoop_history experts orc maxRounds 1 [] ""
  have e1 : (horizontalDiscussion experts orc synth maxRounds).rounds =
      (hLoop experts orc maxRounds 1 [] "").1 := rfl
  have e2 : (horizontalDiscussion experts orc synth maxRounds).historyToSynth =
      (hLoop experts orc maxRounds 1 [] "").2.2 := rfl
  have e3 : (horizontalDiscussion experts orc synth maxRounds).final_decision =
      synth ((hLoop experts orc maxRounds 1 [] "").2.2) := rfl
  refine ⟨?_, by rw [e3, e2]⟩
  rw [e2, e1, h1, h2]
  simp

/-- A successful field extraction pins the score to `extractScore`. -/
theorem extractEval_score (parsed : JsonVal) (p : ParsedEval)
    (h : extractEval parsed = some p) : extractScore parsed = some p.score := by
  cases parsed with
  | null => simp [extractEval] at h
  | bool b => simp [extractEval] at h
  | num q => simp [extractEval] at h
  | str s => simp [extractEval] at h
  | arr l => simp [extractEval] at h
  | obj kvs =>
      rcases h1 : extractScore (JsonVal.obj kvs) with _ | q <;>
        rcases h2 : extractFeedback kvs with _ | f <;>
          rcases h3 : extractRationale kvs with _ | r <;>
            rcases h4 : extractMissing kvs with _ | m <;>
              simp [extractEval, h1, h2, h3, h4] at h
      rw [← h]

/-- C8 counterexample: the evaluator stores the parsed score verbatim —
`150` stays `150` (outside 0..100, no clamping) and `82.5` stays `82.5`
(not rounded to an integer). -/
theorem c8_counterexample :
    ((evaluate_results 70 0 3 "\x7b\"score\": 150\x7d").map (·.score) = some 150 ∧
      ¬ ((150 : Rat) ≤ 100)) ∧
    ((evaluate_results 70 0 3 "\x7b\"score\": 82.5\x7d").map (·.score) =
        some (mkRat 165 2) ∧
      (mkRat 165 2).den ≠ 1) :=
  ⟨⟨rfl, by decide⟩, ⟨rfl, by decide⟩⟩

/-- C8 (amended): every evaluation stores the score exactly as parsed from
the LLM response (a missing score field defaults to 50); no rounding and no
clamping to 0..100 is performed. -/
theorem c8_score_passthrough (T : Int) (it mi : Nat) (resp : String)
    (ev : EvaluationResult) (h : evaluate_results T it mi resp = some ev) :
    extractScore (parse_json_response resp (.obj [])) = some ev.score ∧
    (∀ kvs, parse_json_response resp (.obj []) = .obj kvs →
      pyGet kvs "score" = none → ev.score = 50) := by
  obtain ⟨p, hp, rfl⟩ := Option.map_eq_some'.mp h
  have hs := extractEval_score _ p hp
  rw [applyOverrides_score]
  refine ⟨hs, fun kvs hkvs hnone => ?_⟩
  rw [hkvs] at hs
  simp only [extractScore, hnone] at hs
  exact (Option.some.inj hs).symm

/-- Witness for C8 (amended) at the out-of-range response
`{"score": 150}`. -/
theorem c8_score_passthrough_witness :
    evaluate_results 70 0 3 "\x7b\"score\": 150\x7d" =
      some ⟨true, 150, none, none, "", [], false⟩ ∧
    extractScore (parse_json_response "\x7b\"score\": 150\x7d" (.obj [])) =
      some (⟨true, 150, none, none, "", [], false⟩ : EvaluationResult).score :=
  ⟨rfl,
    (c8_score_passthrough 70 0 3 "\x7b\"score\": 150\x7d"
      ⟨true, 150, none, none, "", [], false⟩ rfl).1⟩

/-- Under a valid URL pool (non-empty, no blank entries), the endpoint
validation fallback of lines 487-499 never fires: the assigned endpoint is
the plain round-robin pick, and it is non-empty. -/
theorem expertEndpoint_good (urls : List String) (idx : Nat) (hne : urls ≠ [])
    (hgood : ∀ u ∈ urls, pyStrip u ≠ "") :
    expertEndpoint urls idx = urls.getD (idx % urls.length) "" ∧
    expertEndpoint urls idx ≠ "" := by
  have hlen : 0 < urls.length := List.length_pos.mpr hne
  have hlt : idx % urls.length < urls.length := Nat.mod_lt _ hlen
  have hmem : urls.getD (idx % urls.length) "" ∈ urls := by
    rw [List.getD_eq_getElem?_getD, List.getElem?_eq_getElem hlt]
    exact List.getElem_mem _
  have hstrip : pyStrip (urls.getD (idx % urls.length) "") ≠ "" := hgood _ hmem
  have hbeq : (pyStrip (urls.getD (idx % urls.length) "") == "") = false :=
    beq_eq_false_iff_ne.mpr hstrip
  constructor
  · unfold expertEndpoint
    simp only [hbeq, Bool.false_eq_true, if_false]
  · unfold expertEndpoint
    simp only [hbeq, Bool.false_eq_true, if_false]
    intro he
    exact hstrip (by rw [he]; rfl)

/-- The default executor expert is bound to the first URL, which is the
round-robin pick for index 0, and is non-empty. -/
theorem defaultExpert_endpoint (urls : List String) (hne : urls ≠ [])
    (hgood : ∀ u ∈ urls, pyStrip u ≠ "") :
    (defaultExpert urls).endpoint = urls.getD (0 % urls.length) "" ∧
    (defaultExpert urls).endpoint ≠ "" := by
  cases urls with
  | nil => exact absurd rfl hne
  | cons u t =>
      refine ⟨by rw [Nat.zero_mod]; rfl, fun he => ?_⟩
      exact hgood u (by simp) (by rw [show u = "" from he]; rfl)

/-- The expert-materialization loop produces one expert per parsed entry,
with dense indices and round-robin endpoints offset by the start index. -/
theorem buildExperts_spec (urls : List String) :
    ∀ l idx0 es, buildExperts urls l idx0 = some es →
      es.length = l.length ∧
      ∀ i, i < es.length → ∃ e, es[i]? = some e ∧
        e.endpoint = expertEndpoint urls (idx0 + i) ∧ e.index = idx0 + i := by
  intro l
  induction l with
  | nil =>
      intro idx0 es h
      simp only [buildExperts, Option.some.injEq] at h
      subst h
      exact ⟨rfl, fun i hi => absurd hi (by simp)⟩
  | cons v rest ih =>
      intro idx0 es h
      cases v with
      | obj ekvs =>
          rcases hrec : buildExperts urls rest (idx0 + 1) with _ | tl
          · rw [buildExperts, hrec] at h
            exact Option.noConfusion h
          · rw [buildExperts, hrec] at h
            obtain rfl := (Option.some.inj h).symm
            obtain ⟨hlen, hcomp⟩ := ih (idx0 + 1) tl hrec
            refine ⟨by simp [hlen], fun i hi => ?_⟩
            cases i with
            | zero =>
                refine ⟨{ role := pyGetD ekvs "role" (JsonVal.str "executor")
                          responsibilities := pyGetD ekvs "responsibilities" (JsonVal.str "")
                          contract := pyGetD ekvs "contract" (JsonVal.str "")
                          endpoint := expertEndpoint urls idx0
                          index := idx0 }, by simp, ?_, ?_⟩
                · rw [Nat.add_zero]
                · rw [Nat.add_zero]
            | succ j =>
                have hj : j < tl.length := by
                  simp only [List.length_cons] at hi
                  omega
                obtain ⟨e, he, hep, hidx⟩ := hcomp j hj
                refine ⟨e, by simpa using he, ?_, by omega⟩
                rw [hep]
                congr 1
                omega
      | null => exact Option.noConfusion h
      | bool b => exact Option.noConfusion h
      | num q => exact Option.noConfusion h
      | str s => exact Option.noConfusion h
      | arr a => exact Option.noConfusion h

/-- C9: under the module-level URL-pool guarantees (non-empty list, no
blank entries, lines 49-55), every successful recruitment materializes at
most `MAX_WORKERS` experts from the parsed list (plus the single default
executor when none parse), the list is non-empty, every expert `i` is bound
to `WORKER_URLS[i mod len(WORKER_URLS)]` with a dense index and a non-empty
endpoint, and an empty parsed expert list yields exactly the default
executor expert bound to `WORKER_URLS[0]`. -/
theorem c9_round_robin (urls : List String) (maxW : Nat) (resp : String)
    (es : List RExpert) (hne : urls ≠ []) (hgood : ∀ u ∈ urls, pyStrip u ≠ "")
    (h : recruit_experts urls maxW resp = some es) :
    (1 ≤ es.length ∧ es.length ≤ max 1 maxW) ∧
    (∀ i, i < es.length → ∃ e, es[i]? = some e ∧
        e.endpoint = urls.getD (i % urls.length) "" ∧ e.index = i ∧ e.endpoint ≠ "") ∧
    (∀ kvs, parse_json_response resp (.obj []) = .obj kvs →
      pyGetD kvs "experts" (.arr []) = .arr [] → es = [defaultExpert urls]) := by
  have hie : urls.isEmpty = false := by
    cases urls with
    | nil => exact absurd rfl hne
    | cons a t => rfl
  have hdefault :
      (1 ≤ ([defaultExpert urls] : List RExpert).length ∧
        ([defaultExpert urls] : List RExpert).length ≤ max 1 maxW) ∧
      (∀ i, i < ([defaultExpert urls] : List RExpert).length →
        ∃ e, ([defaultExpert urls] : List RExpert)[i]? = some e ∧
          e.endpoint = urls.getD (i % urls.length) "" ∧ e.index = i ∧ e.endpoint ≠ "") := by
    obtain ⟨hdep, hdne⟩ := defaultExpert_endpoint urls hne hgood
    refine ⟨⟨by simp, by simp⟩, fun i hi => ?_⟩
    have hi0 : i = 0 := by simpa using hi
    subst hi0
    exact ⟨defaultExpert urls, rfl, hdep, rfl, hdne⟩
  rcases hparsed : parse_json_response resp (.obj []) with _ | b | q | s0 | a | kvs
  · rw [recruit_experts, hparsed] at h; exact Option.noConfusion h
  · rw [recruit_experts, hparsed] at h; exact Option.noConfusion h
  · rw [recruit_experts, hparsed] at h; exact Option.noConfusion h
  · rw [recruit_experts, hparsed] at h; exact Option.noConfusion h
  · rw [recruit_experts, hparsed] at h; exact Option.noConfusion h
  · rw [recruit_experts, hparsed] at h
    rw [hie] at h
    simp only [Bool.false_eq_true, if_false] at h
    rcases hraw : pyGetD kvs "experts" (.arr []) with _ | b | q | s1 | l | kvs2 <;>
      simp only [hraw] at h
    · exact Option.noConfusion h
    · exact Option.noConfusion h
    · exact Option.noConfusion h
    · -- string slice: only the empty string (or a zero worker cap) recruits
      by_cases hs : s1.isEmpty || maxW == 0
      · rw [if_pos hs] at h
        have hsub := Option.some.inj h
        subst hsub
        exact ⟨hdefault.1, hdefault.2, fun kvs' hkvs' hraw' => rfl⟩
      · rw [if_neg hs] at h
        exact Option.noConfusion h
    · -- the main list path
      rcases hbuild : buildExperts urls (l.take maxW) 0 with _ | es2 <;>
        simp only [hbuild] at h
      · exact Option.noConfusion h
      · obtain ⟨hblen, hbcomp⟩ := buildExperts_spec urls (l.take maxW) 0 es2 hbuild
        by_cases hemp : es2.isEmpty
        · rw [if_pos hemp] at h
          have hsub := Option.some.inj h
          subst hsub
          exact ⟨hdefault.1, hdefault.2, fun kvs' hkvs' hraw' => rfl⟩
        · rw [if_neg hemp] at h
          have hsub := Option.some.inj h
          subst hsub
          have hlen1 : 1 ≤ es2.length := by
            cases es2 with
            | nil => exact absurd rfl hemp
            | cons a t => simp
          refine ⟨⟨hlen1, ?_⟩, fun i hi => ?_, fun kvs' hkvs' hraw' => ?_⟩
          · have : (l.take maxW).length ≤ maxW := by
              simp [List.length_take]
            omega
          · obtain ⟨e, he, hep, hidx⟩ := hbcomp i hi
            rw [Nat.zero_add] at hep hidx
            obtain ⟨heg, hene⟩ := expertEndpoint_good urls i hne hgood
            exact ⟨e, he, by rw [hep, heg], hidx, by rw [hep]; exact hene⟩
          · have hk := JsonVal.obj.inj hkvs'
            subst hk
            rw [hraw] at hraw'
            have ha := JsonVal.arr.inj hraw'
            subst ha
            simp only [List.take_nil, List.length_nil] at hblen
            rw [List.length_eq_zero] at hblen
            subst hblen
            exact absurd rfl hemp
    · exact Option.noConfusion h

/-- Witness for C9: two URLs, three parsed experts — endpoints cycle
`u1, u2, u1`. -/
theorem c9_round_robin_witness :
    (["http://w1", "http://w2"] : List String) ≠ [] ∧
    recruit_experts ["http://w1", "http://w2"] 5
        "\x7b\"experts\": [\x7b\"role\": \"planner\"\x7d, \x7b\x7d, \x7b\x7d]\x7d" =
      some [⟨.str "planner", .str "", .str "", "http://w1", 0⟩,
            ⟨.str "executor", .str "", .str "", "http://w2", 1⟩,
            ⟨.str "executor", .str "", .str "", "http://w1", 2⟩] ∧
    (∀ i, i < 3 → ∃ e,
      ([⟨.str "planner", .str "", .str "", "http://w1", 0⟩,
        ⟨.str "executor", .str "", .str "", "http://w2", 1⟩,
        ⟨.str "executor", .str "", .str "", "http://w1", 2⟩] : List RExpert)[i]? = some e ∧
      e.endpoint = (["http://w1", "http://w2"] : List String).getD (i % 2) "" ∧
      e.index = i ∧ e.endpoint ≠ "") :=
  ⟨List.cons_ne_nil _ _, rfl, by
    have := (c9_round_robin ["http://w1", "http://w2"] 5
      "\x7b\"experts\": [\x7b\"role\": \"planner\"\x7d, \x7b\x7d, \x7b\x7d]\x7d"
      [⟨.str "planner", .str "", .str "", "http://w1", 0⟩,
       ⟨.str "executor", .str "", .str "", "http://w2", 1⟩,
       ⟨.str "executor", .str "", .str "", "http://w1", 2⟩]
      (List.cons_ne_nil _ _) (by intro u hu; fin_cases hu <;> decide) rfl).2.1
    simpa using this⟩

/-- C10: the four return paths of `handle_chat` (invalid JSON body, missing
or non-string prompt, generation error, successful generation) each match
the admission increment with exactly one decrement, and so does the
no-backend early return (which never increments) — but a body that is valid
JSON without being an object (e.g. `[1, 2]`) raises `AttributeError` at
`data.get` after the increment and terminates the handler with the counter
left elevated: the claimed invariant fails on that execution. -/
theorem c10_inflight_balance :
    (∀ (body : Option JsonVal) (gen : Except String String) (n : Nat),
      (handle_chat false body gen n).2 = n) ∧
    (∀ (gen : Except String String) (n : Nat), (handle_chat true none gen n).2 = n) ∧
    (∀ (kvs : List (String × JsonVal)) (gen : Except String String) (n : Nat),
      (handle_chat true (some (.obj kvs)) gen n).2 = n) ∧
    (∀ (n : Nat),
      handle_chat true (some (.arr [.num 1, .num 2])) (.ok "ok") n = (.crash, n + 1)) := by
  refine ⟨fun body gen n => rfl, fun gen n => rfl, fun kvs gen n => ?_, fun n => rfl⟩
  unfold handle_chat
  rcases hp : extractPrompt kvs with _ | v
  · simp [hp]
  · cases v with
    | str s =>
        by_cases hs : s.isEmpty
        · simp [hp, hs]
        · cases gen with
          | error e => simp [hp, hs]
          | ok t => simp [hp, hs]
    | null => simp [hp]
    | bool b => simp [hp]
    | num q => simp [hp]
    | arr l => simp [hp]
    | obj o => simp [hp]

end AgenticTraffic
